import Mathlib

/-!
Verification of the channel/call stack engine (`src/core/lib/channel/channel_stack.cc`),
the HPACK parser table (`hpack_parser_table.h`), and the graceful-drain protocol of the
gRPC core, as a shallow embedding.

Memory is modelled by byte offsets (`Nat`); structure sizes and the platform alignment
are fixed representative 64-bit values — none of the verified properties depend on the
particular numbers, only on the arithmetic the source performs with them.
-/

namespace GrpcStack

/-- Platform maximum alignment (`GPR_MAX_ALIGNMENT` from `gpr/alloc.h`); 16 on the
supported 64-bit platforms.  The source checks that it is a power of two. -/
def GPR_MAX_ALIGNMENT : Nat := 16

/-- Representative `sizeof(grpc_channel_stack)` on a 64-bit platform. -/
def sizeof_grpc_channel_stack : Nat := 208

/-- Representative `sizeof(grpc_channel_element)` (two pointers). -/
def sizeof_grpc_channel_element : Nat := 16

/-- Representative `sizeof(grpc_call_stack)` on a 64-bit platform. -/
def sizeof_grpc_call_stack : Nat := 64

/-- Representative `sizeof(grpc_call_element)` (three pointers). -/
def sizeof_grpc_call_element : Nat := 24

/-- Round `size` up to a multiple of `GPR_MAX_ALIGNMENT`.  The source computes
`(size + GPR_MAX_ALIGNMENT - 1) & ~(GPR_MAX_ALIGNMENT - 1)`, which agrees with this
arithmetic form because the alignment is a power of two (the source `CHECK`s that). -/
def GPR_ROUND_UP_TO_ALIGNMENT_SIZE (size : Nat) : Nat :=
  ((size + GPR_MAX_ALIGNMENT - 1) / GPR_MAX_ALIGNMENT) * GPR_MAX_ALIGNMENT

/-- A filter descriptor (`grpc_channel_filter`): state sizes plus the outcome each of
its two init entry points would report (`none` = `absl::OkStatus()`).  The entry
points are data here because the engine only forwards their results. -/
structure grpc_channel_filter where
  name : String
  sizeof_call_data : Nat
  sizeof_channel_data : Nat
  init_channel_elem : Option String
  init_call_elem : Option String
deriving DecidableEq, Repr, Inhabited

/-- One slot of the channel element array: filter descriptor plus the byte offset of
its per-channel state region (`channel_data`) from the start of the stack. -/
structure grpc_channel_element where
  filter : grpc_channel_filter
  channel_data : Nat
deriving DecidableEq, Repr, Inhabited

/-- One slot of the call element array: filter, shared channel-state offset, and the
byte offset of its private per-call state region. -/
structure grpc_call_element where
  filter : grpc_channel_filter
  channel_data : Nat
  call_data : Nat
deriving DecidableEq, Repr, Inhabited

/-- Size in bytes of the memory block needed for a channel stack
(`grpc_channel_stack_size`): rounded header, rounded element array, then one rounded
region per filter accumulated in the loop. -/
def grpc_channel_stack_size (filters : List grpc_channel_filter) : Nat :=
  filters.foldl
    (fun size f => size + GPR_ROUND_UP_TO_ALIGNMENT_SIZE f.sizeof_channel_data)
    (GPR_ROUND_UP_TO_ALIGNMENT_SIZE sizeof_grpc_channel_stack +
      GPR_ROUND_UP_TO_ALIGNMENT_SIZE (filters.length * sizeof_grpc_channel_element))

/-- Address of the channel element array (`CHANNEL_ELEMS_FROM_STACK`). -/
def CHANNEL_ELEMS_FROM_STACK (stk : Nat) : Nat :=
  stk + GPR_ROUND_UP_TO_ALIGNMENT_SIZE sizeof_grpc_channel_stack

/-- Address of the call element array (`CALL_ELEMS_FROM_STACK`). -/
def CALL_ELEMS_FROM_STACK (stk : Nat) : Nat :=
  stk + GPR_ROUND_UP_TO_ALIGNMENT_SIZE sizeof_grpc_call_stack

/-- Address of channel element `index` (`grpc_channel_stack_element`). -/
def grpc_channel_stack_element (channel_stack : Nat) (index : Nat) : Nat :=
  CHANNEL_ELEMS_FROM_STACK channel_stack + index * sizeof_grpc_channel_element

/-- Address of call element `index` (`grpc_call_stack_element`). -/
def grpc_call_stack_element (call_stack : Nat) (index : Nat) : Nat :=
  CALL_ELEMS_FROM_STACK call_stack + index * sizeof_grpc_call_element

/-- Recover the stack address from its first channel element
(`grpc_channel_stack_from_top_element`). -/
def grpc_channel_stack_from_top_element (elem : Nat) : Nat :=
  elem - GPR_ROUND_UP_TO_ALIGNMENT_SIZE sizeof_grpc_channel_stack

/-- Recover the stack address from its first call element
(`grpc_call_stack_from_top_element`). -/
def grpc_call_stack_from_top_element (elem : Nat) : Nat :=
  elem - GPR_ROUND_UP_TO_ALIGNMENT_SIZE sizeof_grpc_call_stack

/-- The error-merging step of both init loops: a new error is kept only when no error
was recorded yet (`if (!error.ok()) { if (first_error.ok()) first_error = error; }`). -/
def record_first_error (first_error error : Option String) : Option String :=
  match error, first_error with
  | some e, none => some e
  | _, _ => first_error

/-- State threaded through the per-filter loop of `grpc_channel_stack_init`:
elements built so far, the running `user_data` offset, the running `call_size`, the
indices whose `init_channel_elem` was invoked (in invocation order), and the
accumulated first error. -/
structure ChannelInitState where
  elems : List grpc_channel_element
  user_data : Nat
  call_size : Nat
  trace : List Nat
  first_error : Option String
deriving DecidableEq, Repr

/-- The per-filter loop of `grpc_channel_stack_init`: binds the element, invokes the
init entry point of the filter, merges the error, and advances `user_data` and
`call_size` by the rounded state sizes. -/
def channel_init_loop :
    List grpc_channel_filter → Nat → Nat → Nat → Option String → ChannelInitState
  | [], _, user_data, call_size, first_error =>
      ⟨[], user_data, call_size, [], first_error⟩
  | f :: rest, i, user_data, call_size, first_error =>
      let r := channel_init_loop rest (i + 1)
        (user_data + GPR_ROUND_UP_TO_ALIGNMENT_SIZE f.sizeof_channel_data)
        (call_size + GPR_ROUND_UP_TO_ALIGNMENT_SIZE f.sizeof_call_data)
        (record_first_error first_error f.init_channel_elem)
      ⟨⟨f, user_data⟩ :: r.elems, r.user_data, r.call_size, i :: r.trace, r.first_error⟩

/-- A constructed channel stack (the fields of `grpc_channel_stack` the engine reads
back: element count, the element array, and the precomputed call stack size). -/
structure grpc_channel_stack where
  count : Nat
  elems : List grpc_channel_element
  call_stack_size : Nat
deriving DecidableEq, Repr

/-- Result of `grpc_channel_stack_init`: the stack, the invocation trace, the error
returned to the caller, and whether the two final `CHECK`s hold (`user_data` past the
stack start and equal to `grpc_channel_stack_size`; a false value is a process abort
in the source, not a reported error). -/
structure ChannelInitResult where
  stack : grpc_channel_stack
  trace : List Nat
  first_error : Option String
  layout_check : Bool
deriving DecidableEq, Repr

/-- Shallow embedding of `grpc_channel_stack_init`, with the stack placed at offset 0:
`user_data` starts just past the rounded header and rounded element array, the loop
initializes every filter, and the final `CHECK`s compare the reached offset with
`grpc_channel_stack_size`. -/
def grpc_channel_stack_init (filters : List grpc_channel_filter) : ChannelInitResult :=
  let user_data0 := GPR_ROUND_UP_TO_ALIGNMENT_SIZE sizeof_grpc_channel_stack +
    GPR_ROUND_UP_TO_ALIGNMENT_SIZE (filters.length * sizeof_grpc_channel_element)
  let call_size0 := GPR_ROUND_UP_TO_ALIGNMENT_SIZE sizeof_grpc_call_stack +
    GPR_ROUND_UP_TO_ALIGNMENT_SIZE (filters.length * sizeof_grpc_call_element)
  let r := channel_init_loop filters 0 user_data0 call_size0 none
  { stack := ⟨filters.length, r.elems, r.call_size⟩
    trace := r.trace
    first_error := r.first_error
    layout_check :=
      decide (0 < r.user_data) && decide (r.user_data = grpc_channel_stack_size filters) }

/-- First pass of `grpc_call_stack_init`: wire each call element (filter copied,
`channel_data` shared from the channel element, `call_data` bound to the running
offset) with no filter code running. -/
def call_wire_loop : List grpc_channel_element → Nat → List grpc_call_element
  | [], _ => []
  | ce :: rest, user_data =>
      ⟨ce.filter, ce.channel_data, user_data⟩ ::
        call_wire_loop rest
          (user_data + GPR_ROUND_UP_TO_ALIGNMENT_SIZE ce.filter.sizeof_call_data)

/-- Second pass of `grpc_call_stack_init`: invoke `init_call_elem` of every wired
element in forward order, merging errors; returns the invocation trace and the first
error. -/
def call_init_loop : List grpc_call_element → Nat → Option String → List Nat × Option String
  | [], _, first_error => ([], first_error)
  | e :: rest, i, first_error =>
      let r := call_init_loop rest (i + 1)
        (record_first_error first_error e.filter.init_call_elem)
      (i :: r.1, r.2)

/-- Result of `grpc_call_stack_init`: the wired-and-initialized call elements, the
call-init invocation trace, and the error returned to the caller. -/
structure CallInitResult where
  count : Nat
  call_elems : List grpc_call_element
  trace : List Nat
  first_error : Option String
deriving DecidableEq, Repr

/-- Shallow embedding of `grpc_call_stack_init` (call stack placed at offset 0): the
wiring pass runs over all channel elements first, then the init pass runs over the
fully wired call elements. -/
def grpc_call_stack_init (channel_stack : grpc_channel_stack) : CallInitResult :=
  let user_data0 := GPR_ROUND_UP_TO_ALIGNMENT_SIZE sizeof_grpc_call_stack +
    GPR_ROUND_UP_TO_ALIGNMENT_SIZE
      (channel_stack.count * sizeof_grpc_call_element)
  let call_elems := call_wire_loop channel_stack.elems user_data0
  let r := call_init_loop call_elems 0 none
  ⟨channel_stack.count, call_elems, r.1, r.2⟩

/-- Observable actions of `grpc_channel_stack_destroy`, in program order. -/
inductive ChannelDestroyEvent where
  | destroy_channelz_data_source
  | destroy_channel_elem (i : Nat)
  | on_destroy_cb
  | destroy_event_engine
  | destroy_stats_plugin_group
deriving DecidableEq, Repr

/-- The per-filter loop of `grpc_channel_stack_destroy`: one `destroy_channel_elem`
call per element, in forward order. -/
def channel_destroy_loop : List grpc_channel_element → Nat → List ChannelDestroyEvent
  | [], _ => []
  | _ :: rest, i =>
      ChannelDestroyEvent.destroy_channel_elem i :: channel_destroy_loop rest (i + 1)

/-- Shallow embedding of `grpc_channel_stack_destroy` as the list of observable
actions it performs: channelz data source teardown, the per-filter loop, the
`on_destroy` callback, then release of the event engine and the stats plugin group. -/
def grpc_channel_stack_destroy (stack : grpc_channel_stack) : List ChannelDestroyEvent :=
  ChannelDestroyEvent.destroy_channelz_data_source ::
    (channel_destroy_loop stack.elems 0 ++
      [ChannelDestroyEvent.on_destroy_cb,
       ChannelDestroyEvent.destroy_event_engine,
       ChannelDestroyEvent.destroy_stats_plugin_group])

/-- One `destroy_call_elem` invocation: the element index and the closure that was
passed as `then_schedule_closure` (`none` models `nullptr`); closures are identified
by an abstract tag. -/
inductive CallDestroyEvent where
  | destroy_call_elem (i : Nat) (then_schedule_closure : Option Nat)
deriving DecidableEq, Repr

/-- The loop of `grpc_call_stack_destroy`: forward order, and
`i == count - 1 ? then_schedule_closure : nullptr` as the closure argument. -/
def call_destroy_loop :
    List grpc_call_element → Nat → Nat → Option Nat → List CallDestroyEvent
  | [], _, _, _ => []
  | _ :: rest, i, count, closure =>
      CallDestroyEvent.destroy_call_elem i (if i = count - 1 then closure else none) ::
        call_destroy_loop rest (i + 1) count closure

/-- Shallow embedding of `grpc_call_stack_destroy` as its invocation trace. -/
def grpc_call_stack_destroy (call_elems : List grpc_call_element)
    (then_schedule_closure : Option Nat) : List CallDestroyEvent :=
  call_destroy_loop call_elems 0 call_elems.length then_schedule_closure

/-- Target address of `grpc_call_next_op` invoked on the element at address `elem`:
`elem + 1` in element-pointer arithmetic, with no bounds check. -/
def grpc_call_next_op (elem : Nat) : Nat :=
  elem + sizeof_grpc_call_element

/-- Target address of `grpc_channel_next_op`: `elem + 1`, no bounds check. -/
def grpc_channel_next_op (elem : Nat) : Nat :=
  elem + sizeof_grpc_channel_element

/-- Target address of `grpc_channel_next_get_info`: `elem + 1`, no bounds check. -/
def grpc_channel_next_get_info (elem : Nat) : Nat :=
  elem + sizeof_grpc_channel_element

/-- An address is a valid call element of the stack at `call_stack` holding `count`
elements when it is the address of some element with index below `count`. -/
def is_valid_call_elem (call_stack count addr : Nat) : Prop :=
  ∃ j, j < count ∧ addr = grpc_call_stack_element call_stack j

/-- An address is a valid channel element of the stack at `channel_stack` holding
`count` elements. -/
def is_valid_channel_elem (channel_stack count addr : Nat) : Prop :=
  ∃ j, j < count ∧ addr = grpc_channel_stack_element channel_stack j

end GrpcStack

namespace HPack

/-- Index of the last entry of the HPACK static table (`hpack_constants::kLastStaticEntry`,
61 per RFC 7541). -/
def kLastStaticEntry : Nat := 61

/-- Per-entry overhead of the HPACK size accounting (32 bytes per RFC 7541;
the fixed per-entry overhead of the byte-cost formula). -/
def kEntryOverhead : Nat := 32

/-- Initial HPACK table size (`hpack_constants::kInitialTableSize`, 4096 per RFC 7541). -/
def kInitialTableSize : Nat := 4096

/-- Modulus of `uint32_t` arithmetic. -/
def UINT32_MOD : Nat := 4294967296

/-- One table entry (`HPackTable::Memento`): the parsed metadata is abstracted to the
two field lengths that determine its byte cost. -/
structure Memento where
  key_len : Nat
  value_len : Nat
deriving DecidableEq, Repr, Inhabited

/-- Byte cost of an entry under the HPACK accounting formula: field lengths plus the
fixed per-entry overhead. -/
def Memento.transport_size (m : Memento) : Nat :=
  m.key_len + m.value_len + kEntryOverhead

/-- Modelled from the spec: the contents of the fixed static table
(`HPackTable::StaticMementos`, built in `hpack_parser_table.cc` which is not in the
repository slice); one distinct memento per static position. -/
def static_memento (i : Nat) : Memento := ⟨i, i + 1⟩

/-- The fixed read-only static table: `kLastStaticEntry` mementos, never mutated. -/
def static_mementos : List Memento :=
  (List.range kLastStaticEntry).map static_memento

/-- Result of a lookup: a live entry, the distinct null "entry not found" result, or
an access outside a live array (undefined behavior in the C source, modelled
explicitly). -/
inductive LookupResult where
  | found (m : Memento)
  | notFound
  | outOfBounds
deriving DecidableEq, Repr

/-- Maximum entry count the ring can need for a byte bound, derived from the bound
and the per-entry overhead (the capacity derivation of `hpack_constants`; every live
entry costs at least `kEntryOverhead` bytes). -/
def entries_for_bytes (bytes : Nat) : Nat :=
  bytes / kEntryOverhead + 1

/-- Initial ring capacity (`hpack_constants::kInitialTableEntries`). -/
def kInitialTableEntries : Nat := entries_for_bytes kInitialTableSize

/-- The dynamic-table ring buffer (`HPackTable::MementoRingBuffer`): oldest live
entry at logical index `first_entry_` (may exceed capacity, wraparound by modulo),
`num_entries_` live entries, backing store of `max_entries_` slots. -/
structure MementoRingBuffer where
  first_entry_ : Nat
  num_entries_ : Nat
  max_entries_ : Nat
  entries_ : List Memento
deriving DecidableEq, Repr, Inhabited

/-- Modelled from the spec: body of `HPackTable::MementoRingBuffer::Lookup` is not in
the repository slice; per the spec it returns null when the index lies outside the
live range and otherwise resolves within the ring modulo `max_entries_`, with the
most-recently-added entry addressed by index 0 (closest to the static/dynamic
boundary). -/
def MementoRingBuffer.Lookup (r : MementoRingBuffer) (tbl_index : Nat) : LookupResult :=
  if tbl_index < r.num_entries_ then
    match r.entries_.get?
        ((r.first_entry_ + (r.num_entries_ - 1 - tbl_index)) % r.max_entries_) with
    | some m => LookupResult.found m
    | none => LookupResult.outOfBounds
  else LookupResult.notFound

/-- Modelled from the spec: `MementoRingBuffer::Put` (body not in the repository
slice) appends at the write position `(first_entry + num_entries) mod max_entries`
and grows `num_entries`; requires `num_entries < max_entries`. -/
def MementoRingBuffer.Put (r : MementoRingBuffer) (m : Memento) : MementoRingBuffer :=
  { r with
    entries_ := r.entries_.set ((r.first_entry_ + r.num_entries_) % r.max_entries_) m
    num_entries_ := r.num_entries_ + 1 }

/-- Modelled from the spec: `MementoRingBuffer::PopOne` (body not in the repository
slice) removes the oldest entry, advancing `first_entry_`; requires
`num_entries > 0`. -/
def MementoRingBuffer.PopOne (r : MementoRingBuffer) : Memento × MementoRingBuffer :=
  (r.entries_.getD (r.first_entry_ % r.max_entries_) default,
   { r with first_entry_ := r.first_entry_ + 1, num_entries_ := r.num_entries_ - 1 })

/-- The live entries of the ring in logical order, oldest first. -/
def MementoRingBuffer.liveEntries (r : MementoRingBuffer) : List Memento :=
  (List.range r.num_entries_).map
    fun k => r.entries_.getD ((r.first_entry_ + k) % r.max_entries_) default

/-- Modelled from the spec: `MementoRingBuffer::Rebuild` (body not in the repository
slice) allocates a backing array of the new capacity and copies all live entries
across in logical order, preserving relative recency. -/
def MementoRingBuffer.Rebuild (r : MementoRingBuffer) (max_entries : Nat) :
    MementoRingBuffer :=
  ⟨0, r.num_entries_, max_entries,
    r.liveEntries ++ List.replicate (max_entries - r.num_entries_) default⟩

/-- The HPACK table (`HPackTable`): byte accounting fields plus the dynamic ring. -/
structure HPackTable where
  mem_used_ : Nat
  max_bytes_ : Nat
  current_table_bytes_ : Nat
  entries_ : MementoRingBuffer
deriving DecidableEq, Repr, Inhabited

/-- A freshly constructed `HPackTable`: accounting at the protocol initial size,
empty ring at the initial capacity. -/
def initialHPackTable : HPackTable :=
  ⟨0, kInitialTableSize, kInitialTableSize,
    ⟨0, 0, kInitialTableEntries, List.replicate kInitialTableEntries default⟩⟩

/-- Modelled from the spec: `HPackTable::EvictOne` (body not in the repository slice)
pops the oldest entry and decrements `mem_used_` by its byte cost. -/
def HPackTable.EvictOne (t : HPackTable) : HPackTable :=
  { t with
    mem_used_ := t.mem_used_ - (t.entries_.PopOne).1.transport_size
    entries_ := (t.entries_.PopOne).2 }

/-- The eviction loop, fuelled by the current entry count (each iteration removes one
entry, so the count bounds the number of iterations): evict oldest-first while
`mem_used_` exceeds the bound. -/
def evict_loop : Nat → HPackTable → Nat → HPackTable
  | 0, t, _ => t
  | fuel + 1, t, bound =>
      if bound < t.mem_used_ then evict_loop fuel t.EvictOne bound else t

/-- Evict entries oldest-first until `mem_used_ ≤ bound`. -/
def HPackTable.evict_down_to (t : HPackTable) (bound : Nat) : HPackTable :=
  evict_loop t.entries_.num_entries_ t bound

/-- Modelled from the spec: `HPackTable::AddLargerThanCurrentTableSize` (body not in
the repository slice) — an entry whose cost alone exceeds the agreed size leaves the
table empty. -/
def HPackTable.AddLargerThanCurrentTableSize (t : HPackTable) : HPackTable :=
  t.evict_down_to 0

/-- Modelled from the spec: `HPackTable::Add` (body not in the repository slice) —
if the cost alone exceeds `current_table_bytes_` the table is flushed and the entry
is not retained (`false`); otherwise evict oldest-first until the entry fits, then
append it at the ring write position and grow `mem_used_`. -/
def HPackTable.Add (t : HPackTable) (m : Memento) : HPackTable × Bool :=
  if t.current_table_bytes_ < m.transport_size then
    (t.AddLargerThanCurrentTableSize, false)
  else
    let t1 := t.evict_down_to (t.current_table_bytes_ - m.transport_size)
    ({ t1 with
        mem_used_ := t1.mem_used_ + m.transport_size
        entries_ := t1.entries_.Put m }, true)

/-- Modelled from the spec: `HPackTable::SetMaxBytes` (body not in the repository
slice) adjusts the hard ceiling; lowering it evicts down to the new bound, the
currently agreed size is kept within the ceiling, and the ring capacity is rederived
(the documented invariant `mem_used ≤ current_table_bytes ≤ max_bytes` is
maintained). -/
def HPackTable.SetMaxBytes (t : HPackTable) (max_bytes : Nat) : HPackTable :=
  if t.max_bytes_ = max_bytes then t
  else
    let t1 := t.evict_down_to max_bytes
    { t1 with
      max_bytes_ := max_bytes
      current_table_bytes_ := min t1.current_table_bytes_ max_bytes
      entries_ :=
        t1.entries_.Rebuild (entries_for_bytes (min t1.current_table_bytes_ max_bytes)) }

/-- Modelled from the spec: `HPackTable::SetCurrentTableSize` (body not in the
repository slice) fails, leaving the state unchanged, when the negotiated size
exceeds the hard ceiling; otherwise it evicts down to the new bound and rebuilds the
ring at the rederived capacity. -/
def HPackTable.SetCurrentTableSize (t : HPackTable) (bytes : Nat) : HPackTable × Bool :=
  if t.max_bytes_ < bytes then (t, false)
  else
    let t1 := t.evict_down_to bytes
    ({ t1 with
        current_table_bytes_ := bytes
        entries_ := t1.entries_.Rebuild (entries_for_bytes bytes) }, true)

/-- Shallow embedding of `HPackTable::LookupDynamic` (inline in the header, in the
repository slice): subtract the static count plus one and resolve in the ring. -/
def HPackTable.LookupDynamic (t : HPackTable) (index : Nat) : LookupResult :=
  t.entries_.Lookup (index - (kLastStaticEntry + 1))

/-- Shallow embedding of `HPackTable::Lookup` (inline in the header, in the
repository slice): indices up to `kLastStaticEntry` read `static_mementos[index - 1]`
— with `index - 1` computed in `uint32_t` arithmetic, so index 0 wraps around — and
larger indices resolve dynamically. -/
def HPackTable.Lookup (t : HPackTable) (index : Nat) : LookupResult :=
  if index ≤ kLastStaticEntry then
    match static_mementos.get? ((index + (UINT32_MOD - 1)) % UINT32_MOD) with
    | some m => LookupResult.found m
    | none => LookupResult.outOfBounds
  else t.LookupDynamic index

/-- A mutation of the table, for reasoning about arbitrary operation sequences. -/
inductive HPackOp where
  | add (m : Memento)
  | add_larger
  | set_max_bytes (b : Nat)
  | set_current_table_size (b : Nat)
deriving DecidableEq, Repr

/-- Apply one mutation. -/
def HPackTable.applyOp (t : HPackTable) : HPackOp → HPackTable
  | HPackOp.add m => (t.Add m).1
  | HPackOp.add_larger => t.AddLargerThanCurrentTableSize
  | HPackOp.set_max_bytes b => t.SetMaxBytes b
  | HPackOp.set_current_table_size b => (t.SetCurrentTableSize b).1

/-- Apply a sequence of mutations in order. -/
def HPackTable.applyOps (t : HPackTable) (ops : List HPackOp) : HPackTable :=
  ops.foldl HPackTable.applyOp t

/-- The internal consistency of a table state: `mem_used_` is the summed cost of the
live entries, the documented size invariant holds, the ring capacity is the one
derived from the agreed size, and the backing store has exactly that capacity. -/
abbrev HPackTable.Inv (t : HPackTable) : Prop :=
  t.mem_used_ = (t.entries_.liveEntries.map Memento.transport_size).sum ∧
  t.mem_used_ ≤ t.current_table_bytes_ ∧
  t.current_table_bytes_ ≤ t.max_bytes_ ∧
  t.entries_.max_entries_ = entries_for_bytes t.current_table_bytes_ ∧
  t.entries_.entries_.length = t.entries_.max_entries_

end HPack

namespace Drain

/-- Frames the server writes to the wire during shutdown (abstracted to the two
kinds the drain protocol is about). -/
inductive Frame where
  | goaway (last_stream_id : Nat)
  | ping
deriving DecidableEq, Repr

/-- Connection phase with respect to the drain protocol. -/
inductive Phase where
  | running
  | draining
  | closed
deriving DecidableEq, Repr

/-- Modelled from the spec: observable server-side connection state of the
graceful-drain protocol (the chttp2 transport implementation is not in the
repository slice; only its test is). -/
structure ConnState where
  phase : Phase
  sent : List Frame
  last_accepted_stream_id : Nat
  accepted : List Nat
deriving DecidableEq, Repr

/-- Events driving the drain protocol; the fixed ~2-second ping timeout is abstracted
to the `ping_timeout` event (it fires only when no acknowledgment arrived first). -/
inductive DrainEvent where
  | begin_shutdown
  | request (stream_id : Nat)
  | ping_ack
  | ping_timeout
deriving DecidableEq, Repr

/-- The unbounded stream id carried by the first goodbye: `(1 << 31) - 1`. -/
def kMaxStreamId : Nat := 2 ^ 31 - 1

/-- The fixed ping timeout of the drain protocol in milliseconds (~2 seconds; the
test fixture configures `GRPC_ARG_PING_TIMEOUT_MS` to 2000). -/
def kGracefulShutdownPingTimeoutMs : Nat := 2000

/-- Send the second goodbye carrying the true highest accepted stream id and close. -/
def send_final_goaway (s : ConnState) : ConnState :=
  { s with
    phase := Phase.closed
    sent := s.sent ++ [Frame.goaway s.last_accepted_stream_id] }

/-- Modelled from the spec: one step of the drain protocol.  Beginning shutdown sends
the unbounded goodbye plus the liveness probe; the probe acknowledgment or the
timeout — whichever comes first — triggers the final goodbye and closes; requests
before the close are accepted and recorded, requests after it are silently
ignored. -/
def drain_step (s : ConnState) : DrainEvent → ConnState
  | DrainEvent.begin_shutdown =>
      match s.phase with
      | Phase.running =>
          { s with
            phase := Phase.draining
            sent := s.sent ++ [Frame.goaway kMaxStreamId, Frame.ping] }
      | _ => s
  | DrainEvent.request id =>
      match s.phase with
      | Phase.closed => s
      | _ =>
          { s with
            accepted := s.accepted ++ [id]
            last_accepted_stream_id := max s.last_accepted_stream_id id }
  | DrainEvent.ping_ack =>
      match s.phase with
      | Phase.draining => send_final_goaway s
      | _ => s
  | DrainEvent.ping_timeout =>
      match s.phase with
      | Phase.draining => send_final_goaway s
      | _ => s

/-- A connection before shutdown begins. -/
def initConn : ConnState := ⟨Phase.running, [], 0, []⟩

/-- Run a sequence of drain events. -/
def drain_run (s : ConnState) (evs : List DrainEvent) : ConnState :=
  evs.foldl drain_step s

end Drain

namespace GrpcStack

/-- Example filter with successful init entry points, for concrete witnesses. -/
def exFilterA : grpc_channel_filter := ⟨"connected", 8, 24, none, none⟩

/-- Example filter whose init entry points fail, for concrete witnesses. -/
def exFilterB : grpc_channel_filter := ⟨"http", 40, 4, some "binit", some "bcall"⟩

/-- Example filter list for concrete witnesses. -/
def exFilters : List grpc_channel_filter := [exFilterA, exFilterB]

/-- Example channel stack built from `exFilters`, for concrete witnesses. -/
def exChannelStack : grpc_channel_stack := (grpc_channel_stack_init exFilters).stack

end GrpcStack

namespace HPack

/-- Example table holding one entry, for concrete witnesses. -/
def exTable : HPackTable := (initialHPackTable.Add ⟨1, 2⟩).1

end HPack

namespace GrpcStack

theorem foldl_add_sum {α : Type} (g : α → Nat) (l : List α) :
    ∀ a : Nat, l.foldl (fun s f => s + g f) a = a + (l.map g).sum := by
  induction l with
  | nil => intro a; simp
  | cons f rest ih => intro a; simp [ih, Nat.add_assoc]

theorem channel_init_loop_user_data (filters : List grpc_channel_filter) :
    ∀ (i ud cs : Nat) (fe : Option String),
      (channel_init_loop filters i ud cs fe).user_data =
        ud + (filters.map fun f => GPR_ROUND_UP_TO_ALIGNMENT_SIZE f.sizeof_channel_data).sum := by
  induction filters with
  | nil => intros; simp [channel_init_loop]
  | cons f rest ih => intros i ud cs fe; simp [channel_init_loop, ih, Nat.add_assoc]

theorem channel_init_loop_call_size (filters : List grpc_channel_filter) :
    ∀ (i ud cs : Nat) (fe : Option String),
      (channel_init_loop filters i ud cs fe).call_size =
        cs + (filters.map fun f => GPR_ROUND_UP_TO_ALIGNMENT_SIZE f.sizeof_call_data).sum := by
  induction filters with
  | nil => intros; simp [channel_init_loop]
  | cons f rest ih => intros i ud cs fe; simp [channel_init_loop, ih, Nat.add_assoc]

theorem channel_init_loop_trace (filters : List grpc_channel_filter) :
    ∀ (i ud cs : Nat) (fe : Option String),
      (channel_init_loop filters i ud cs fe).trace =
        (List.range filters.length).map (· + i) := by
  induction filters with
  | nil => intros; simp [channel_init_loop]
  | cons f rest ih =>
      intros i ud cs fe
      have harith : (fun k => k + 1 + i) = (fun k : Nat => k + (i + 1)) := by
        funext k; omega
      simp [channel_init_loop, ih, List.range_succ_eq_map, List.map_map,
        Function.comp_def, Nat.succ_eq_add_one, harith]

theorem channel_init_loop_elems_filter (filters : List grpc_channel_filter) :
    ∀ (i ud cs : Nat) (fe : Option String),
      ((channel_init_loop filters i ud cs fe).elems.map fun e => e.filter) = filters := by
  induction filters with
  | nil => intros; simp [channel_init_loop]
  | cons f rest ih => intros i ud cs fe; simp [channel_init_loop, ih]

theorem channel_init_loop_error_some (filters : List grpc_channel_filter) :
    ∀ (i ud cs : Nat) (e : String),
      (channel_init_loop filters i ud cs (some e)).first_error = some e := by
  induction filters with
  | nil => intros; simp [channel_init_loop]
  | cons f rest ih =>
      intros i ud cs e
      cases h : f.init_channel_elem <;>
        simp [channel_init_loop, record_first_error, h, ih]

theorem channel_init_loop_error_none (filters : List grpc_channel_filter) :
    ∀ (i ud cs : Nat),
      (channel_init_loop filters i ud cs none).first_error =
        filters.findSome? fun f => f.init_channel_elem := by
  induction filters with
  | nil => intros; simp [channel_init_loop]
  | cons f rest ih =>
      intros i ud cs
      cases h : f.init_channel_elem with
      | none => simp [channel_init_loop, record_first_error, h, ih, List.findSome?_cons]
      | some e =>
          simp [channel_init_loop, record_first_error, h,
            channel_init_loop_error_some, List.findSome?_cons]

/-- C1: for every filter sequence, `grpc_channel_stack_size` is exactly the rounded
header plus the rounded element array plus the sum of the rounded per-filter channel
state sizes, and the `user_data` offset reached by the init loop equals exactly that
size, so the final fatal `CHECK`s of `grpc_channel_stack_init` always pass. -/
theorem c1_channel_stack_layout_exact (filters : List grpc_channel_filter) :
    grpc_channel_stack_size filters =
        GPR_ROUND_UP_TO_ALIGNMENT_SIZE sizeof_grpc_channel_stack +
          GPR_ROUND_UP_TO_ALIGNMENT_SIZE (filters.length * sizeof_grpc_channel_element) +
          (filters.map fun f => GPR_ROUND_UP_TO_ALIGNMENT_SIZE f.sizeof_channel_data).sum ∧
    (channel_init_loop filters 0
        (GPR_ROUND_UP_TO_ALIGNMENT_SIZE sizeof_grpc_channel_stack +
          GPR_ROUND_UP_TO_ALIGNMENT_SIZE (filters.length * sizeof_grpc_channel_element))
        (GPR_ROUND_UP_TO_ALIGNMENT_SIZE sizeof_grpc_call_stack +
          GPR_ROUND_UP_TO_ALIGNMENT_SIZE (filters.length * sizeof_grpc_call_element))
        none).user_data = grpc_channel_stack_size filters ∧
    (grpc_channel_stack_init filters).layout_check = true := by
  have hsize := foldl_add_sum
    (fun f : grpc_channel_filter => GPR_ROUND_UP_TO_ALIGNMENT_SIZE f.sizeof_channel_data)
    filters
    (GPR_ROUND_UP_TO_ALIGNMENT_SIZE sizeof_grpc_channel_stack +
      GPR_ROUND_UP_TO_ALIGNMENT_SIZE (filters.length * sizeof_grpc_channel_element))
  have hud := channel_init_loop_user_data filters 0
    (GPR_ROUND_UP_TO_ALIGNMENT_SIZE sizeof_grpc_channel_stack +
      GPR_ROUND_UP_TO_ALIGNMENT_SIZE (filters.length * sizeof_grpc_channel_element))
    (GPR_ROUND_UP_TO_ALIGNMENT_SIZE sizeof_grpc_call_stack +
      GPR_ROUND_UP_TO_ALIGNMENT_SIZE (filters.length * sizeof_grpc_call_element))
    none
  have hpos : 0 < GPR_ROUND_UP_TO_ALIGNMENT_SIZE sizeof_grpc_channel_stack := by decide
  refine ⟨?_, ?_, ?_⟩
  · rw [grpc_channel_stack_size, hsize]
  · rw [hud, grpc_channel_stack_size, hsize]
  · simp only [grpc_channel_stack_init, Bool.and_eq_true, decide_eq_true_eq]
    rw [hud, grpc_channel_stack_size, hsize]
    omega

/-- C10: recovering the stack from its first element inverts element lookup at index
0, for channel stacks and call stacks alike, because both directions use the same
alignment-rounded header offset. -/
theorem c10_from_top_element_inverse (s : Nat) :
    grpc_channel_stack_from_top_element (grpc_channel_stack_element s 0) = s ∧
    grpc_call_stack_from_top_element (grpc_call_stack_element s 0) = s := by
  constructor <;>
    simp [grpc_channel_stack_from_top_element, grpc_channel_stack_element,
      grpc_call_stack_from_top_element, grpc_call_stack_element,
      CHANNEL_ELEMS_FROM_STACK, CALL_ELEMS_FROM_STACK]

end GrpcStack

namespace GrpcStack

theorem call_wire_loop_length (elems : List grpc_channel_element) :
    ∀ ud : Nat, (call_wire_loop elems ud).length = elems.length := by
  induction elems with
  | nil => intro ud; simp [call_wire_loop]
  | cons ce rest ih => intro ud; simp [call_wire_loop, ih]

theorem call_wire_loop_filters (elems : List grpc_channel_element) :
    ∀ ud : Nat,
      ((call_wire_loop elems ud).map fun e => e.filter) = elems.map fun ce => ce.filter := by
  induction elems with
  | nil => intro ud; simp [call_wire_loop]
  | cons ce rest ih => intro ud; simp [call_wire_loop, ih]

theorem call_wire_loop_findSome (elems : List grpc_channel_element) :
    ∀ ud : Nat,
      ((call_wire_loop elems ud).findSome? fun e => e.filter.init_call_elem) =
        elems.findSome? fun ce => ce.filter.init_call_elem := by
  induction elems with
  | nil => intro ud; simp [call_wire_loop]
  | cons ce rest ih =>
      intro ud
      cases h : ce.filter.init_call_elem <;>
        simp [call_wire_loop, List.findSome?_cons, h, ih]

theorem call_init_loop_trace (elems : List grpc_call_element) :
    ∀ (i : Nat) (fe : Option String),
      (call_init_loop elems i fe).1 = (List.range elems.length).map (· + i) := by
  induction elems with
  | nil => intros; simp [call_init_loop]
  | cons e rest ih =>
      intros i fe
      have harith : (fun k => k + 1 + i) = (fun k : Nat => k + (i + 1)) := by
        funext k; omega
      simp [call_init_loop, ih, List.range_succ_eq_map, List.map_map,
        Function.comp_def, Nat.succ_eq_add_one, harith]

theorem call_init_loop_error_some (elems : List grpc_call_element) :
    ∀ (i : Nat) (e : String), (call_init_loop elems i (some e)).2 = some e := by
  induction elems with
  | nil => intros; simp [call_init_loop]
  | cons ce rest ih =>
      intros i e
      cases h : ce.filter.init_call_elem <;>
        simp [call_init_loop, record_first_error, h, ih]

theorem call_init_loop_error_none (elems : List grpc_call_element) :
    ∀ i : Nat,
      (call_init_loop elems i none).2 = elems.findSome? fun e => e.filter.init_call_elem := by
  induction elems with
  | nil => intros; simp [call_init_loop]
  | cons ce rest ih =>
      intro i
      cases h : ce.filter.init_call_elem with
      | none => simp [call_init_loop, record_first_error, h, ih, List.findSome?_cons]
      | some e =>
          simp [call_init_loop, record_first_error, h,
            call_init_loop_error_some, List.findSome?_cons]

/-- C2: both init functions invoke every init entry point in forward order whatever
the per-filter outcomes are (the trace is always the full index range), return the
first error encountered with later errors not surfaced (OK when none fails), and
return the fully built stack either way. -/
theorem c2_init_continues_past_errors (filters : List grpc_channel_filter)
    (s : grpc_channel_stack) :
    (grpc_channel_stack_init filters).trace = List.range filters.length ∧
    (grpc_channel_stack_init filters).first_error =
      (filters.findSome? fun f => f.init_channel_elem) ∧
    ((grpc_channel_stack_init filters).stack.elems.map fun e => e.filter) = filters ∧
    (grpc_channel_stack_init filters).stack.count = filters.length ∧
    (grpc_call_stack_init s).trace = List.range s.elems.length ∧
    (grpc_call_stack_init s).first_error =
      (s.elems.findSome? fun ce => ce.filter.init_call_elem) ∧
    ((grpc_call_stack_init s).call_elems.map fun e => e.filter) =
      s.elems.map fun ce => ce.filter := by
  refine ⟨?_, ?_, ?_, ?_, ?_, ?_, ?_⟩
  · simpa using channel_init_loop_trace filters 0 _ _ none
  · simpa [grpc_channel_stack_init] using channel_init_loop_error_none filters 0 _ _
  · simpa [grpc_channel_stack_init] using channel_init_loop_elems_filter filters 0 _ _ none
  · simp [grpc_channel_stack_init]
  · simpa [grpc_call_stack_init, call_wire_loop_length] using
      call_init_loop_trace (call_wire_loop s.elems _) 0 none
  · simpa [grpc_call_stack_init, call_wire_loop_findSome] using
      call_init_loop_error_none (call_wire_loop s.elems _) 0
  · simpa [grpc_call_stack_init] using call_wire_loop_filters s.elems _

end GrpcStack

namespace GrpcStack

theorem call_wire_loop_getD (elems : List grpc_channel_element) :
    ∀ (ud i : Nat), i < elems.length →
      (call_wire_loop elems ud).getD i default =
        ⟨(elems.getD i default).filter, (elems.getD i default).channel_data,
          ud + ((elems.take i).map fun ce =>
            GPR_ROUND_UP_TO_ALIGNMENT_SIZE ce.filter.sizeof_call_data).sum⟩ := by
  induction elems with
  | nil => intro ud i h; simp at h
  | cons ce rest ih =>
      intro ud i h
      cases i with
      | zero => simp [call_wire_loop]
      | succ n =>
          have hn : n < rest.length := by simpa using h
          have hrec := ih (ud + GPR_ROUND_UP_TO_ALIGNMENT_SIZE ce.filter.sizeof_call_data) n hn
          simp only [call_wire_loop, List.getD_cons_succ, List.take_succ_cons,
            List.map_cons, List.sum_cons, hrec, Nat.add_assoc]

/-- C3: `grpc_call_stack_init` wires every call element from the corresponding
channel element — same filter, the same `channel_data` offset (shared, not copied),
and a private alignment-rounded `call_data` sub-region — before any filter code runs,
and the call-init pass then covers every index in forward order. -/
theorem c3_call_stack_two_pass (s : grpc_channel_stack) (i : Nat)
    (h : i < s.elems.length) :
    ((grpc_call_stack_init s).call_elems.getD i default).filter =
      (s.elems.getD i default).filter ∧
    ((grpc_call_stack_init s).call_elems.getD i default).channel_data =
      (s.elems.getD i default).channel_data ∧
    ((grpc_call_stack_init s).call_elems.getD i default).call_data =
      GPR_ROUND_UP_TO_ALIGNMENT_SIZE sizeof_grpc_call_stack +
        GPR_ROUND_UP_TO_ALIGNMENT_SIZE (s.count * sizeof_grpc_call_element) +
        ((s.elems.take i).map fun ce =>
          GPR_ROUND_UP_TO_ALIGNMENT_SIZE ce.filter.sizeof_call_data).sum ∧
    (grpc_call_stack_init s).trace = List.range s.elems.length := by
  have hw := call_wire_loop_getD s.elems
    (GPR_ROUND_UP_TO_ALIGNMENT_SIZE sizeof_grpc_call_stack +
      GPR_ROUND_UP_TO_ALIGNMENT_SIZE (s.count * sizeof_grpc_call_element)) i h
  have htr : (grpc_call_stack_init s).trace = List.range s.elems.length := by
    simpa [grpc_call_stack_init, call_wire_loop_length] using
      call_init_loop_trace (call_wire_loop s.elems
        (GPR_ROUND_UP_TO_ALIGNMENT_SIZE sizeof_grpc_call_stack +
          GPR_ROUND_UP_TO_ALIGNMENT_SIZE (s.count * sizeof_grpc_call_element))) 0 none
  refine ⟨?_, ?_, ?_, htr⟩ <;>
    · simp only [grpc_call_stack_init]
      rw [hw]

/-- Witness for C3 at a concrete two-filter stack. -/
theorem c3_call_stack_two_pass_witness :
    1 < exChannelStack.elems.length ∧
    ((grpc_call_stack_init exChannelStack).call_elems.getD 1 default).channel_data =
      (exChannelStack.elems.getD 1 default).channel_data :=
  ⟨by decide, (c3_call_stack_two_pass exChannelStack 1 (by decide)).2.1⟩

theorem channel_destroy_loop_eq (elems : List grpc_channel_element) :
    ∀ i : Nat,
      channel_destroy_loop elems i =
        (List.range elems.length).map
          fun k => ChannelDestroyEvent.destroy_channel_elem (k + i) := by
  induction elems with
  | nil => intro i; simp [channel_destroy_loop]
  | cons ce rest ih =>
      intro i
      have harith :
          (fun k => ChannelDestroyEvent.destroy_channel_elem (k + 1 + i)) =
            fun k => ChannelDestroyEvent.destroy_channel_elem (k + (i + 1)) := by
        funext k
        have hk : k + 1 + i = k + (i + 1) := by omega
        rw [hk]
      simp [channel_destroy_loop, ih, List.range_succ_eq_map, List.map_map,
        Function.comp_def, Nat.succ_eq_add_one, harith]

theorem call_destroy_loop_eq (elems : List grpc_call_element) :
    ∀ (i count : Nat) (closure : Option Nat),
      call_destroy_loop elems i count closure =
        (List.range elems.length).map
          fun k => CallDestroyEvent.destroy_call_elem (k + i)
            (if k + i = count - 1 then closure else none) := by
  induction elems with
  | nil => intros; simp [call_destroy_loop]
  | cons ce rest ih =>
      intros i count closure
      have harith :
          (fun k => CallDestroyEvent.destroy_call_elem (k + 1 + i)
              (if k + 1 + i = count - 1 then closure else none)) =
            fun k => CallDestroyEvent.destroy_call_elem (k + (i + 1))
              (if k + (i + 1) = count - 1 then closure else none) := by
        funext k
        have hk : k + 1 + i = k + (i + 1) := by omega
        rw [hk]
      simp [call_destroy_loop, ih, List.range_succ_eq_map, List.map_map,
        Function.comp_def, Nat.succ_eq_add_one, harith]

theorem count_map_range_eq_one {β : Type} [DecidableEq β] (f : Nat → β)
    (hf : Function.Injective f) (n i : Nat) (h : i < n) :
    ((List.range n).map f).count (f i) = 1 :=
  List.count_eq_one_of_mem ((List.nodup_range n).map hf)
    (List.mem_map_of_mem f (List.mem_range.mpr h))

end GrpcStack

namespace GrpcStack

/-- C4: channel-stack destruction runs each filter destroy exactly once in forward
order, then the registered on-destroy callback, then the release of the event engine
and the stats plugin group; call-stack destruction runs each filter destroy exactly
once in forward order and hands the caller-supplied continuation closure only to the
last filter, every earlier filter receiving a null closure. -/
theorem c4_destroy_forward_order (stack : grpc_channel_stack)
    (call_elems : List grpc_call_element) (closure : Option Nat) (i : Nat) :
    grpc_channel_stack_destroy stack =
      ChannelDestroyEvent.destroy_channelz_data_source ::
        ((List.range stack.elems.length).map ChannelDestroyEvent.destroy_channel_elem ++
          [ChannelDestroyEvent.on_destroy_cb, ChannelDestroyEvent.destroy_event_engine,
            ChannelDestroyEvent.destroy_stats_plugin_group]) ∧
    (i < stack.elems.length →
      (grpc_channel_stack_destroy stack).count
        (ChannelDestroyEvent.destroy_channel_elem i) = 1) ∧
    grpc_call_stack_destroy call_elems closure =
      (List.range call_elems.length).map (fun k =>
        CallDestroyEvent.destroy_call_elem k
          (if k = call_elems.length - 1 then closure else none)) ∧
    (i < call_elems.length →
      (grpc_call_stack_destroy call_elems closure).count
        (CallDestroyEvent.destroy_call_elem i
          (if i = call_elems.length - 1 then closure else none)) = 1) ∧
    (i + 1 < call_elems.length →
      (grpc_call_stack_destroy call_elems closure).get? i =
        some (CallDestroyEvent.destroy_call_elem i none)) := by
  have hch : grpc_channel_stack_destroy stack =
      ChannelDestroyEvent.destroy_channelz_data_source ::
        ((List.range stack.elems.length).map ChannelDestroyEvent.destroy_channel_elem ++
          [ChannelDestroyEvent.on_destroy_cb, ChannelDestroyEvent.destroy_event_engine,
            ChannelDestroyEvent.destroy_stats_plugin_group]) := by
    simp [grpc_channel_stack_destroy, channel_destroy_loop_eq]
  have hca : grpc_call_stack_destroy call_elems closure =
      (List.range call_elems.length).map (fun k =>
        CallDestroyEvent.destroy_call_elem k
          (if k = call_elems.length - 1 then closure else none)) := by
    simp [grpc_call_stack_destroy, call_destroy_loop_eq]
  refine ⟨hch, ?_, hca, ?_, ?_⟩
  · intro hi
    have hinj : Function.Injective ChannelDestroyEvent.destroy_channel_elem := by
      intro a b hab; cases hab; rfl
    rw [hch]
    simp [List.count_cons, List.count_append,
      count_map_range_eq_one ChannelDestroyEvent.destroy_channel_elem hinj _ i hi]
  · intro hi
    have hinj : Function.Injective (fun k =>
        CallDestroyEvent.destroy_call_elem k
          (if k = call_elems.length - 1 then closure else none)) := by
      intro a b hab
      simpa using congrArg (fun ev => match ev with
        | CallDestroyEvent.destroy_call_elem j _ => j) hab
    rw [hca]
    exact count_map_range_eq_one _ hinj _ i hi
  · intro hi
    rw [hca]
    have hlt : i < call_elems.length := by omega
    have hne : ¬(i = call_elems.length - 1) := by omega
    simp [List.get?_eq_getElem?, List.getElem?_map, List.getElem?_range, hlt, hne]

/-- Witness for C4 at a concrete two-element call stack and closure tag 7. -/
theorem c4_destroy_forward_order_witness :
    (grpc_channel_stack_destroy exChannelStack).count
        (ChannelDestroyEvent.destroy_channel_elem 0) = 1 ∧
    (grpc_call_stack_destroy (grpc_call_stack_init exChannelStack).call_elems
        (some 7)).count (CallDestroyEvent.destroy_call_elem 0 none) = 1 ∧
    (grpc_call_stack_destroy (grpc_call_stack_init exChannelStack).call_elems
        (some 7)).get? 0 = some (CallDestroyEvent.destroy_call_elem 0 none) := by
  have h := c4_destroy_forward_order exChannelStack
    (grpc_call_stack_init exChannelStack).call_elems (some 7) 0
  refine ⟨h.2.1 (by decide), ?_, h.2.2.2.2 (by decide)⟩
  have h4 := h.2.2.2.1 (by decide)
  simpa [show ¬((0 : Nat) =
      (grpc_call_stack_init exChannelStack).call_elems.length - 1) from by decide]
    using h4

/-- C5: the three next-operation dispatchers forward from the element at index `i` to
the element at index `i + 1` of the same stack by pointer increment, unconditionally
and with no bounds check; when `i + 1 < count` the target is a valid element of the
stack, and the target reached from the last element is not a valid element — nothing
protects that invocation. -/
theorem c5_next_op_unchecked_forwarding (stack count i : Nat) :
    grpc_call_next_op (grpc_call_stack_element stack i) =
      grpc_call_stack_element stack (i + 1) ∧
    grpc_channel_next_op (grpc_channel_stack_element stack i) =
      grpc_channel_stack_element stack (i + 1) ∧
    grpc_channel_next_get_info (grpc_channel_stack_element stack i) =
      grpc_channel_stack_element stack (i + 1) ∧
    (i + 1 < count →
      is_valid_call_elem stack count (grpc_call_next_op (grpc_call_stack_element stack i))) ∧
    (i + 1 < count →
      is_valid_channel_elem stack count
        (grpc_channel_next_op (grpc_channel_stack_element stack i))) ∧
    (i + 1 < count →
      is_valid_channel_elem stack count
        (grpc_channel_next_get_info (grpc_channel_stack_element stack i))) ∧
    ¬ is_valid_call_elem stack count
        (grpc_call_next_op (grpc_call_stack_element stack (count - 1))) ∧
    ¬ is_valid_channel_elem stack count
        (grpc_channel_next_op (grpc_channel_stack_element stack (count - 1))) := by
  have hcall : ∀ j : Nat, grpc_call_next_op (grpc_call_stack_element stack j) =
      grpc_call_stack_element stack (j + 1) := by
    intro j
    simp [grpc_call_next_op, grpc_call_stack_element, CALL_ELEMS_FROM_STACK,
      Nat.add_mul, Nat.one_mul, Nat.add_assoc]
  have hchan : ∀ j : Nat, grpc_channel_next_op (grpc_channel_stack_element stack j) =
      grpc_channel_stack_element stack (j + 1) := by
    intro j
    simp [grpc_channel_next_op, grpc_channel_stack_element, CHANNEL_ELEMS_FROM_STACK,
      Nat.add_mul, Nat.one_mul, Nat.add_assoc]
  refine ⟨hcall i, hchan i, hchan i, ?_, ?_, ?_, ?_, ?_⟩
  · intro hlt; exact ⟨i + 1, hlt, hcall i⟩
  · intro hlt; exact ⟨i + 1, hlt, hchan i⟩
  · intro hlt; exact ⟨i + 1, hlt, hchan i⟩
  · rintro ⟨j, hj, heq⟩
    rw [hcall (count - 1)] at heq
    simp [grpc_call_stack_element, CALL_ELEMS_FROM_STACK, GPR_ROUND_UP_TO_ALIGNMENT_SIZE,
      sizeof_grpc_call_stack, sizeof_grpc_call_element, GPR_MAX_ALIGNMENT] at heq
    omega
  · rintro ⟨j, hj, heq⟩
    rw [hchan (count - 1)] at heq
    simp [grpc_channel_stack_element, CHANNEL_ELEMS_FROM_STACK, GPR_ROUND_UP_TO_ALIGNMENT_SIZE,
      sizeof_grpc_channel_stack, sizeof_grpc_channel_element, GPR_MAX_ALIGNMENT] at heq
    omega

/-- Witness for C5 at a two-element stack placed at address 0, forwarding from index 0. -/
theorem c5_next_op_unchecked_forwarding_witness :
    is_valid_call_elem 0 2 (grpc_call_next_op (grpc_call_stack_element 0 0)) ∧
    is_valid_channel_elem 0 2 (grpc_channel_next_op (grpc_channel_stack_element 0 0)) ∧
    ¬ is_valid_call_elem 0 2 (grpc_call_next_op (grpc_call_stack_element 0 1)) := by
  have h := c5_next_op_unchecked_forwarding 0 2 0
  exact ⟨h.2.2.2.1 (by decide), h.2.2.2.2.1 (by decide), h.2.2.2.2.2.2.1⟩

end GrpcStack

namespace HPack

theorem list_getD_set_ne {α : Type} (l : List α) :
    ∀ (i j : Nat) (a d : α), i ≠ j → (l.set i a).getD j d = l.getD j d := by
  induction l with
  | nil => intros; simp [List.set]
  | cons x xs ih =>
      intro i j a d hij
      cases i with
      | zero =>
          cases j with
          | zero => exact absurd rfl hij
          | succ m => simp only [List.set, List.getD_cons_succ]
      | succ n =>
          cases j with
          | zero => simp only [List.set, List.getD_cons_zero]
          | succ m =>
              simp only [List.set, List.getD_cons_succ]
              exact ih n m a d (by omega)

theorem list_getD_set_self {α : Type} (l : List α) :
    ∀ (i : Nat) (a d : α), i < l.length → (l.set i a).getD i d = a := by
  induction l with
  | nil => intro i a d h; simp at h
  | cons x xs ih =>
      intro i a d h
      cases i with
      | zero => simp only [List.set, List.getD_cons_zero]
      | succ n =>
          simp only [List.set, List.getD_cons_succ]
          exact ih n a d (by simpa using h)

theorem list_get?_set_self {α : Type} (l : List α) :
    ∀ (i : Nat) (a : α), i < l.length → (l.set i a).get? i = some a := by
  induction l with
  | nil => intro i a h; simp at h
  | cons x xs ih =>
      intro i a h
      cases i with
      | zero => simp [List.set]
      | succ n => simpa [List.set] using ih n a (by simpa using h)

theorem list_get?_isSome {α : Type} (l : List α) :
    ∀ i : Nat, i < l.length → ∃ a, l.get? i = some a := by
  induction l with
  | nil => intro i h; simp at h
  | cons x xs ih =>
      intro i h
      cases i with
      | zero => exact ⟨x, rfl⟩
      | succ n => simpa using ih n (by simpa using h)

theorem map_getD_range {α : Type} (l : List α) (d : α) :
    (List.range l.length).map (fun k => l.getD k d) = l := by
  induction l with
  | nil => simp
  | cons x xs ih =>
      simp only [List.length_cons, List.range_succ_eq_map, List.map_cons, List.map_map,
        Function.comp_def, Nat.succ_eq_add_one, List.getD_cons_zero, List.getD_cons_succ]
      rw [ih]

theorem mod_shift_inj (f M k n : Nat) (hk : k < M) (hn : n < M)
    (h : (f + k) % M = (f + n) % M) : k = n := by
  have h2 := Nat.ModEq.add_left_cancel' f (show Nat.ModEq M (f + k) (f + n) from h)
  have h3 : k % M = n % M := h2
  rw [Nat.mod_eq_of_lt hk, Nat.mod_eq_of_lt hn] at h3
  exact h3

theorem sum_transport_size_ge (l : List Memento) :
    kEntryOverhead * l.length ≤ (l.map Memento.transport_size).sum := by
  induction l with
  | nil => simp
  | cons m xs ih =>
      simp only [List.map_cons, List.sum_cons, List.length_cons, Memento.transport_size,
        kEntryOverhead] at ih ⊢
      omega

theorem num_lt_entries_for_bytes (L : List Memento) (bound : Nat)
    (h : (L.map Memento.transport_size).sum ≤ bound) :
    L.length < entries_for_bytes bound := by
  have h1 := sum_transport_size_ge L
  have h2 : L.length * kEntryOverhead ≤ bound := by rw [Nat.mul_comm]; omega
  have h3 : L.length ≤ bound / kEntryOverhead :=
    (Nat.le_div_iff_mul_le (by simp [kEntryOverhead])).mpr h2
  simp only [entries_for_bytes]
  omega

theorem liveEntries_length (r : MementoRingBuffer) :
    r.liveEntries.length = r.num_entries_ := by
  simp [MementoRingBuffer.liveEntries]

theorem popOne_live (r : MementoRingBuffer) (h : 0 < r.num_entries_) :
    r.liveEntries = (r.PopOne).1 :: (r.PopOne).2.liveEntries := by
  obtain ⟨n, hn⟩ : ∃ n, r.num_entries_ = n + 1 := ⟨r.num_entries_ - 1, by omega⟩
  simp only [MementoRingBuffer.liveEntries, MementoRingBuffer.PopOne, hn,
    Nat.add_sub_cancel]
  rw [List.range_succ_eq_map]
  simp only [List.map_cons, List.map_map, Function.comp_def, Nat.succ_eq_add_one,
    Nat.add_zero]
  congr 1
  apply List.map_congr_left
  intro k hk
  have hsh : r.first_entry_ + (k + 1) = r.first_entry_ + 1 + k := by omega
  rw [hsh]

theorem put_live (r : MementoRingBuffer) (m : Memento)
    (hlen : r.entries_.length = r.max_entries_) (hnum : r.num_entries_ < r.max_entries_) :
    (r.Put m).liveEntries = r.liveEntries ++ [m] := by
  have hM : 0 < r.max_entries_ := by omega
  simp only [MementoRingBuffer.liveEntries, MementoRingBuffer.Put]
  rw [List.range_succ, List.map_append]
  congr 1
  · apply List.map_congr_left
    intro k hk
    have hkn : k < r.num_entries_ := List.mem_range.mp hk
    apply list_getD_set_ne
    intro habs
    have := mod_shift_inj r.first_entry_ r.max_entries_ _ _
      (by omega) (by omega) habs
    omega
  · simp only [List.map_cons, List.map_nil]
    rw [list_getD_set_self]
    rw [hlen]
    exact Nat.mod_lt _ hM

theorem map_range_getD_prefix {α : Type} (L pad : List α) (d : α) (M num : Nat)
    (hnum : L.length = num) (hM : num ≤ M) :
    (List.range num).map (fun k => (L ++ pad).getD ((0 + k) % M) d) = L := by
  subst hnum
  have hstep : ∀ k ∈ List.range L.length,
      (L ++ pad).getD ((0 + k) % M) d = L.getD k d := by
    intro k hk
    have hk2 : k < L.length := List.mem_range.mp hk
    have hmod : (0 + k) % M = k := by
      rw [Nat.zero_add, Nat.mod_eq_of_lt (by omega)]
    rw [hmod, List.getD_append _ _ _ _ hk2]
  rw [List.map_congr_left hstep, map_getD_range]

theorem rebuild_live (r : MementoRingBuffer) (M : Nat) (h : r.num_entries_ ≤ M) :
    (r.Rebuild M).liveEntries = r.liveEntries ∧
    (r.Rebuild M).entries_.length = M ∧
    (r.Rebuild M).num_entries_ = r.num_entries_ ∧
    (r.Rebuild M).max_entries_ = M := by
  refine ⟨?_, ?_, rfl, rfl⟩
  · exact map_range_getD_prefix r.liveEntries
      (List.replicate (M - r.num_entries_) default) default M r.num_entries_
      (liveEntries_length r) h
  · have := liveEntries_length r
    simp only [MementoRingBuffer.Rebuild, List.length_append, List.length_replicate]
    omega

end HPack

namespace HPack

theorem evictOne_spec (t : HPackTable)
    (hc : t.mem_used_ = (t.entries_.liveEntries.map Memento.transport_size).sum)
    (h0 : 0 < t.entries_.num_entries_) :
    (t.EvictOne).mem_used_ =
        ((t.EvictOne).entries_.liveEntries.map Memento.transport_size).sum ∧
    (t.EvictOne).entries_.num_entries_ = t.entries_.num_entries_ - 1 ∧
    (t.EvictOne).mem_used_ ≤ t.mem_used_ ∧
    (t.EvictOne).max_bytes_ = t.max_bytes_ ∧
    (t.EvictOne).current_table_bytes_ = t.current_table_bytes_ ∧
    (t.EvictOne).entries_.max_entries_ = t.entries_.max_entries_ ∧
    (t.EvictOne).entries_.entries_ = t.entries_.entries_ ∧
    (t.EvictOne).entries_.liveEntries = t.entries_.liveEntries.tail := by
  have hsplit := popOne_live t.entries_ h0
  have hsum : t.mem_used_ =
      (t.entries_.PopOne).1.transport_size +
        (((t.entries_.PopOne).2.liveEntries.map Memento.transport_size)).sum := by
    rw [hc, hsplit]; simp
  refine ⟨?_, rfl, ?_, rfl, rfl, rfl, rfl, ?_⟩
  · show t.mem_used_ - (t.entries_.PopOne).1.transport_size =
      (((t.entries_.PopOne).2.liveEntries.map Memento.transport_size)).sum
    omega
  · show t.mem_used_ - (t.entries_.PopOne).1.transport_size ≤ t.mem_used_
    omega
  · rw [hsplit]; rfl

theorem evict_loop_spec (fuel : Nat) :
    ∀ (t : HPackTable) (bound : Nat),
      t.entries_.num_entries_ ≤ fuel →
      t.mem_used_ = (t.entries_.liveEntries.map Memento.transport_size).sum →
      (evict_loop fuel t bound).mem_used_ =
          (((evict_loop fuel t bound).entries_.liveEntries.map Memento.transport_size)).sum ∧
      (evict_loop fuel t bound).mem_used_ ≤ bound ∧
      (evict_loop fuel t bound).mem_used_ ≤ t.mem_used_ ∧
      (evict_loop fuel t bound).max_bytes_ = t.max_bytes_ ∧
      (evict_loop fuel t bound).current_table_bytes_ = t.current_table_bytes_ ∧
      (evict_loop fuel t bound).entries_.max_entries_ = t.entries_.max_entries_ ∧
      (evict_loop fuel t bound).entries_.entries_ = t.entries_.entries_ := by
  induction fuel with
  | zero =>
      intro t bound hfuel hc
      have hnum0 : t.entries_.num_entries_ = 0 := by omega
      have hlive : t.entries_.liveEntries = [] := by
        simp [MementoRingBuffer.liveEntries, hnum0]
      have hmem : t.mem_used_ = 0 := by rw [hc, hlive]; simp
      refine ⟨hc, ?_, le_rfl, rfl, rfl, rfl, rfl⟩
      show t.mem_used_ ≤ bound
      omega
  | succ fuel ih =>
      intro t bound hfuel hc
      by_cases hgt : bound < t.mem_used_
      · have h0 : 0 < t.entries_.num_entries_ := by
          by_contra hz
          have hnum0 : t.entries_.num_entries_ = 0 := by omega
          have hlive : t.entries_.liveEntries = [] := by
            simp [MementoRingBuffer.liveEntries, hnum0]
          rw [hc, hlive] at hgt
          simp at hgt
        have he := evictOne_spec t hc h0
        have hrec := ih t.EvictOne bound (by omega) he.1
        have hstep : evict_loop (fuel + 1) t bound = evict_loop fuel t.EvictOne bound := by
          simp [evict_loop, hgt]
        rw [hstep]
        refine ⟨hrec.1, hrec.2.1, ?_, ?_, ?_, ?_, ?_⟩
        · exact le_trans hrec.2.2.1 he.2.2.1
        · rw [hrec.2.2.2.1, he.2.2.2.1]
        · rw [hrec.2.2.2.2.1, he.2.2.2.2.1]
        · rw [hrec.2.2.2.2.2.1, he.2.2.2.2.2.1]
        · rw [hrec.2.2.2.2.2.2, he.2.2.2.2.2.2.1]
      · have hstep : evict_loop (fuel + 1) t bound = t := by
          simp [evict_loop, hgt]
        rw [hstep]
        exact ⟨hc, by omega, le_rfl, rfl, rfl, rfl, rfl⟩

theorem evict_down_to_spec (t : HPackTable) (bound : Nat)
    (hc : t.mem_used_ = (t.entries_.liveEntries.map Memento.transport_size).sum) :
    (t.evict_down_to bound).mem_used_ =
        (((t.evict_down_to bound).entries_.liveEntries.map Memento.transport_size)).sum ∧
    (t.evict_down_to bound).mem_used_ ≤ bound ∧
    (t.evict_down_to bound).mem_used_ ≤ t.mem_used_ ∧
    (t.evict_down_to bound).max_bytes_ = t.max_bytes_ ∧
    (t.evict_down_to bound).current_table_bytes_ = t.current_table_bytes_ ∧
    (t.evict_down_to bound).entries_.max_entries_ = t.entries_.max_entries_ ∧
    (t.evict_down_to bound).entries_.entries_ = t.entries_.entries_ :=
  evict_loop_spec t.entries_.num_entries_ t bound le_rfl hc

theorem num_entries_eq_zero_of_sum_zero (r : MementoRingBuffer)
    (h : (r.liveEntries.map Memento.transport_size).sum = 0) :
    r.num_entries_ = 0 := by
  have h1 := sum_transport_size_ge r.liveEntries
  rw [liveEntries_length] at h1
  simp only [kEntryOverhead] at h1
  omega

end HPack

namespace HPack

theorem table_lookup_static (t : HPackTable) (index : Nat) (h1 : 1 ≤ index)
    (h2 : index ≤ kLastStaticEntry) :
    t.Lookup index = LookupResult.found (static_memento (index - 1)) := by
  have hmod : (index + (UINT32_MOD - 1)) % UINT32_MOD = index - 1 := by
    have hidx : index + (UINT32_MOD - 1) = UINT32_MOD + (index - 1) := by
      simp only [UINT32_MOD]; omega
    rw [hidx, Nat.add_mod_left, Nat.mod_eq_of_lt]
    simp only [UINT32_MOD, kLastStaticEntry] at h2 ⊢
    omega
  have hlt : index - 1 < kLastStaticEntry := by
    simp only [kLastStaticEntry] at h2 ⊢
    omega
  have hget : static_mementos.get? (index - 1) = some (static_memento (index - 1)) := by
    simp [static_mementos, List.get?_eq_getElem?, List.getElem?_range, hlt]
  simp only [HPackTable.Lookup, if_pos h2, hmod, hget]

theorem table_lookup_dynamic (t : HPackTable) (index : Nat)
    (h : kLastStaticEntry < index) :
    t.Lookup index = t.entries_.Lookup (index - (kLastStaticEntry + 1)) := by
  rw [HPackTable.Lookup, if_neg (Nat.not_le.mpr h)]
  rfl

theorem table_lookup_dynamic_boundary (t : HPackTable) :
    t.Lookup (kLastStaticEntry + 1) = t.entries_.Lookup 0 := by
  rw [table_lookup_dynamic t _ (by omega)]
  simp

theorem ring_lookup_zero_after_put (r : MementoRingBuffer) (m : Memento)
    (hlen : r.entries_.length = r.max_entries_) (hnum : r.num_entries_ < r.max_entries_) :
    (r.Put m).Lookup 0 = LookupResult.found m := by
  have hM : 0 < r.max_entries_ := by omega
  have hpos : (r.first_entry_ + r.num_entries_) % r.max_entries_ < r.entries_.length := by
    rw [hlen]; exact Nat.mod_lt _ hM
  have hget := list_get?_set_self r.entries_ _ m hpos
  simp only [MementoRingBuffer.Lookup, MementoRingBuffer.Put]
  rw [if_pos (by omega : (0 : Nat) < r.num_entries_ + 1)]
  simp only [Nat.add_sub_cancel, Nat.sub_zero, hget]

theorem add_spec (t : HPackTable) (m : Memento) (h : t.Inv) :
    ((t.Add m).1).Inv ∧
    ((t.Add m).2 = true →
      ((t.Add m).1).Lookup (kLastStaticEntry + 1) = LookupResult.found m) := by
  obtain ⟨hc, hmc, hcm, hcap, hlen⟩ := h
  by_cases hbig : t.current_table_bytes_ < m.transport_size
  · have hev := evict_down_to_spec t 0 hc
    have hAdd : t.Add m = (t.evict_down_to 0, false) := by
      rw [HPackTable.Add, if_pos hbig]
      rfl
    rw [hAdd]
    refine ⟨⟨hev.1, ?_, ?_, ?_, ?_⟩, by simp⟩
    · show (t.evict_down_to 0).mem_used_ ≤ (t.evict_down_to 0).current_table_bytes_
      have h1 := hev.2.1
      rw [hev.2.2.2.2.1]
      omega
    · show (t.evict_down_to 0).current_table_bytes_ ≤ (t.evict_down_to 0).max_bytes_
      rw [hev.2.2.2.2.1, hev.2.2.2.1]
      omega
    · show (t.evict_down_to 0).entries_.max_entries_ =
        entries_for_bytes (t.evict_down_to 0).current_table_bytes_
      rw [hev.2.2.2.2.2.1, hev.2.2.2.2.1, hcap]
    · show (t.evict_down_to 0).entries_.entries_.length =
        (t.evict_down_to 0).entries_.max_entries_
      rw [hev.2.2.2.2.2.2, hev.2.2.2.2.2.1]
      exact hlen
  · have hev := evict_down_to_spec t (t.current_table_bytes_ - m.transport_size) hc
    have hnum1 :
        (t.evict_down_to (t.current_table_bytes_ - m.transport_size)).entries_.num_entries_ <
          (t.evict_down_to (t.current_table_bytes_ - m.transport_size)).entries_.max_entries_ := by
      have hsum :
          (((t.evict_down_to (t.current_table_bytes_ -
              m.transport_size)).entries_.liveEntries.map Memento.transport_size)).sum ≤
            t.current_table_bytes_ := by
        rw [← hev.1]
        omega
      have hx := num_lt_entries_for_bytes _ _ hsum
      rw [liveEntries_length] at hx
      rw [hev.2.2.2.2.2.1, hcap]
      exact hx
    have hlen1 :
        (t.evict_down_to (t.current_table_bytes_ -
            m.transport_size)).entries_.entries_.length =
          (t.evict_down_to (t.current_table_bytes_ -
            m.transport_size)).entries_.max_entries_ := by
      rw [hev.2.2.2.2.2.2, hev.2.2.2.2.2.1]
      exact hlen
    have hput := put_live
      (t.evict_down_to (t.current_table_bytes_ - m.transport_size)).entries_ m hlen1 hnum1
    have hAdd : t.Add m =
        ({ t.evict_down_to (t.current_table_bytes_ - m.transport_size) with
            mem_used_ := (t.evict_down_to (t.current_table_bytes_ -
              m.transport_size)).mem_used_ + m.transport_size
            entries_ := (t.evict_down_to (t.current_table_bytes_ -
              m.transport_size)).entries_.Put m }, true) := by
      rw [HPackTable.Add, if_neg hbig]
    rw [hAdd]
    refine ⟨⟨?_, ?_, ?_, ?_, ?_⟩, fun _ => ?_⟩
    · show (t.evict_down_to (t.current_table_bytes_ - m.transport_size)).mem_used_ +
          m.transport_size = _
      rw [hev.1, hput]
      simp
    · show (t.evict_down_to (t.current_table_bytes_ - m.transport_size)).mem_used_ +
          m.transport_size ≤
        (t.evict_down_to (t.current_table_bytes_ - m.transport_size)).current_table_bytes_
      rw [hev.2.2.2.2.1]
      omega
    · show (t.evict_down_to (t.current_table_bytes_ - m.transport_size)).current_table_bytes_ ≤
        (t.evict_down_to (t.current_table_bytes_ - m.transport_size)).max_bytes_
      rw [hev.2.2.2.2.1, hev.2.2.2.1]
      omega
    · show ((t.evict_down_to (t.current_table_bytes_ -
          m.transport_size)).entries_.Put m).max_entries_ = _
      show (t.evict_down_to (t.current_table_bytes_ -
          m.transport_size)).entries_.max_entries_ = _
      rw [hev.2.2.2.2.2.1, hev.2.2.2.2.1, hcap]
    · show ((t.evict_down_to (t.current_table_bytes_ -
          m.transport_size)).entries_.Put m).entries_.length = _
      simp only [MementoRingBuffer.Put, List.length_set]
      exact hlen1
    · rw [table_lookup_dynamic_boundary]
      exact ring_lookup_zero_after_put _ m hlen1 hnum1

end HPack

namespace HPack

theorem evict_to_bound_inv (t : HPackTable) (bound : Nat) (h : t.Inv)
    (hb : bound ≤ t.current_table_bytes_) : (t.evict_down_to bound).Inv := by
  obtain ⟨hc, hmc, hcm, hcap, hlen⟩ := h
  have hev := evict_down_to_spec t bound hc
  refine ⟨hev.1, ?_, ?_, ?_, ?_⟩
  · show (t.evict_down_to bound).mem_used_ ≤ (t.evict_down_to bound).current_table_bytes_
    have h1 := hev.2.1
    rw [hev.2.2.2.2.1]
    omega
  · show (t.evict_down_to bound).current_table_bytes_ ≤ (t.evict_down_to bound).max_bytes_
    rw [hev.2.2.2.2.1, hev.2.2.2.1]
    omega
  · show (t.evict_down_to bound).entries_.max_entries_ =
      entries_for_bytes (t.evict_down_to bound).current_table_bytes_
    rw [hev.2.2.2.2.2.1, hev.2.2.2.2.1, hcap]
  · show (t.evict_down_to bound).entries_.entries_.length =
      (t.evict_down_to bound).entries_.max_entries_
    rw [hev.2.2.2.2.2.2, hev.2.2.2.2.2.1]
    exact hlen

theorem addLarger_inv (t : HPackTable) (h : t.Inv) :
    (t.AddLargerThanCurrentTableSize).Inv :=
  evict_to_bound_inv t 0 h (Nat.zero_le _)

theorem setMaxBytes_inv (t : HPackTable) (b : Nat) (h : t.Inv) :
    (t.SetMaxBytes b).Inv := by
  obtain ⟨hc, hmc, hcm, hcap, hlen⟩ := h
  by_cases heq : t.max_bytes_ = b
  · rw [HPackTable.SetMaxBytes, if_pos heq]
    exact ⟨hc, hmc, hcm, hcap, hlen⟩
  · rw [HPackTable.SetMaxBytes, if_neg heq]
    have hev := evict_down_to_spec t b hc
    have hsum1 :
        (((t.evict_down_to b).entries_.liveEntries.map Memento.transport_size)).sum ≤
          min (t.evict_down_to b).current_table_bytes_ b := by
      rw [← hev.1]
      have h1 := hev.2.1
      have h2 := hev.2.2.1
      have h3 := hev.2.2.2.2.1
      omega
    have hxnum := num_lt_entries_for_bytes _ _ hsum1
    rw [liveEntries_length] at hxnum
    have hreb := rebuild_live (t.evict_down_to b).entries_
      (entries_for_bytes (min (t.evict_down_to b).current_table_bytes_ b))
      (Nat.le_of_lt hxnum)
    refine ⟨?_, ?_, ?_, rfl, ?_⟩
    · show (t.evict_down_to b).mem_used_ =
        ((((t.evict_down_to b).entries_.Rebuild
            (entries_for_bytes (min (t.evict_down_to b).current_table_bytes_
              b))).liveEntries.map Memento.transport_size)).sum
      rw [hreb.1, ← hev.1]
    · show (t.evict_down_to b).mem_used_ ≤
        min (t.evict_down_to b).current_table_bytes_ b
      have h1 := hev.2.1
      have h2 := hev.2.2.1
      have h3 := hev.2.2.2.2.1
      omega
    · show min (t.evict_down_to b).current_table_bytes_ b ≤ b
      omega
    · show ((t.evict_down_to b).entries_.Rebuild
          (entries_for_bytes (min (t.evict_down_to b).current_table_bytes_
            b))).entries_.length = _
      rw [hreb.2.1]
      rfl

theorem setCurrentTableSize_spec (t : HPackTable) (b : Nat) (h : t.Inv) :
    ((t.SetCurrentTableSize b).1).Inv ∧
    (b = 0 → ((t.SetCurrentTableSize b).1).entries_.num_entries_ = 0 ∧
      ((t.SetCurrentTableSize b).1).mem_used_ = 0) := by
  obtain ⟨hc, hmc, hcm, hcap, hlen⟩ := h
  by_cases hfail : t.max_bytes_ < b
  · rw [HPackTable.SetCurrentTableSize, if_pos hfail]
    exact ⟨⟨hc, hmc, hcm, hcap, hlen⟩, fun hb => absurd hfail (by omega)⟩
  · rw [HPackTable.SetCurrentTableSize, if_neg hfail]
    have hev := evict_down_to_spec t b hc
    have hsum1 :
        (((t.evict_down_to b).entries_.liveEntries.map Memento.transport_size)).sum ≤ b := by
      rw [← hev.1]
      exact hev.2.1
    have hxnum := num_lt_entries_for_bytes _ _ hsum1
    rw [liveEntries_length] at hxnum
    have hreb := rebuild_live (t.evict_down_to b).entries_ (entries_for_bytes b)
      (Nat.le_of_lt hxnum)
    refine ⟨⟨?_, ?_, ?_, rfl, ?_⟩, ?_⟩
    · show (t.evict_down_to b).mem_used_ =
        ((((t.evict_down_to b).entries_.Rebuild
            (entries_for_bytes b)).liveEntries.map Memento.transport_size)).sum
      rw [hreb.1, ← hev.1]
    · show (t.evict_down_to b).mem_used_ ≤ b
      exact hev.2.1
    · show b ≤ (t.evict_down_to b).max_bytes_
      rw [hev.2.2.2.1]
      omega
    · show ((t.evict_down_to b).entries_.Rebuild
          (entries_for_bytes b)).entries_.length = _
      rw [hreb.2.1]
      rfl
    · intro hb
      subst hb
      have hmem0 : (t.evict_down_to 0).mem_used_ = 0 := by
        have := hev.2.1
        omega
      have hsum0 :
          (((t.evict_down_to 0).entries_.liveEntries.map Memento.transport_size)).sum = 0 := by
        rw [← hev.1]
        exact hmem0
      have hnum0 := num_entries_eq_zero_of_sum_zero _ hsum0
      constructor
      · show ((t.evict_down_to 0).entries_.Rebuild (entries_for_bytes 0)).num_entries_ = 0
        rw [hreb.2.2.1]
        exact hnum0
      · exact hmem0

theorem applyOp_inv (t : HPackTable) (op : HPackOp) (h : t.Inv) :
    (t.applyOp op).Inv := by
  cases op with
  | add m => exact (add_spec t m h).1
  | add_larger => exact addLarger_inv t h
  | set_max_bytes b => exact setMaxBytes_inv t b h
  | set_current_table_size b => exact (setCurrentTableSize_spec t b h).1

theorem applyOps_inv (ops : List HPackOp) :
    ∀ t : HPackTable, t.Inv → (t.applyOps ops).Inv := by
  induction ops with
  | nil => intro t h; exact h
  | cons op rest ih =>
      intro t h
      exact ih (t.applyOp op) (applyOp_inv t op h)

set_option maxRecDepth 4000 in
theorem inv_initial : initialHPackTable.Inv := by decide

end HPack

namespace HPack

/-- C6: `HPackTable::Lookup` resolves the unified index space: indices 1 to
`kLastStaticEntry` (61) return the fixed static memento at position `index - 1`
regardless of the dynamic table, larger indices resolve the dynamic table at offset
`index - (kLastStaticEntry + 1)`, and the most recently added dynamic entry is
addressed at the static/dynamic boundary (index 62 finds an entry just retained by
`Add`). -/
theorem c6_lookup_index_space (t : HPackTable) (ops : List HPackOp) (m : Memento)
    (index : Nat) :
    (1 ≤ index → index ≤ kLastStaticEntry →
      t.Lookup index = LookupResult.found (static_memento (index - 1))) ∧
    (kLastStaticEntry < index →
      t.Lookup index = t.entries_.Lookup (index - (kLastStaticEntry + 1))) ∧
    (((HPackTable.applyOps initialHPackTable ops).Add m).2 = true →
      ((HPackTable.applyOps initialHPackTable ops).Add m).1.Lookup
          (kLastStaticEntry + 1) = LookupResult.found m) := by
  refine ⟨fun h1 h2 => table_lookup_static t index h1 h2,
    fun h => table_lookup_dynamic t index h, ?_⟩
  exact (add_spec _ m (applyOps_inv ops initialHPackTable inv_initial)).2

set_option maxRecDepth 4000 in
/-- Witness for C6: a static lookup at index 1 and a boundary lookup right after an
`Add` on a concrete table. -/
theorem c6_lookup_index_space_witness :
    initialHPackTable.Lookup 1 = LookupResult.found (static_memento 0) ∧
    exTable.Lookup 62 = LookupResult.found ⟨1, 2⟩ := by
  have h := c6_lookup_index_space initialHPackTable [] ⟨1, 2⟩ 1
  exact ⟨h.1 (by decide) (by decide), h.2.2 (by decide)⟩

set_option maxRecDepth 4000 in
/-- Counterexample to C7 as stated: at index 0 the static branch is taken and
`static_mementos[index - 1]` is read with `index - 1` wrapping around in `uint32_t`
arithmetic, an out-of-bounds access rather than the null "entry not found" result. -/
theorem c7_counterexample_lookup_zero :
    initialHPackTable.Lookup 0 = LookupResult.outOfBounds ∧
    initialHPackTable.Lookup 0 ≠ LookupResult.notFound := by
  constructor <;> decide

/-- C7 (amended): for every index of at least 1, `Lookup` on any reachable table
never performs an out-of-bounds access, and every dynamic index outside the live
range — already evicted or beyond it — yields the distinct null "entry not found"
result; index 0 is not protected (it reads the static array out of bounds). -/
theorem c7_lookup_dead_index_not_found (ops : List HPackOp) (index : Nat)
    (h1 : 1 ≤ index) :
    HPackTable.Lookup (HPackTable.applyOps initialHPackTable ops) index ≠
      LookupResult.outOfBounds ∧
    (kLastStaticEntry < index →
      (HPackTable.applyOps initialHPackTable ops).entries_.num_entries_ ≤
        index - (kLastStaticEntry + 1) →
      HPackTable.Lookup (HPackTable.applyOps initialHPackTable ops) index =
        LookupResult.notFound) := by
  have hinv := applyOps_inv ops initialHPackTable inv_initial
  set T := HPackTable.applyOps initialHPackTable ops with hT
  obtain ⟨hc, hmc, hcm, hcap, hlen⟩ := hinv
  by_cases hstat : index ≤ kLastStaticEntry
  · rw [table_lookup_static T index h1 hstat]
    exact ⟨by simp, fun h => absurd h (by omega)⟩
  · rw [table_lookup_dynamic T index (Nat.not_le.mp hstat)]
    constructor
    · simp only [MementoRingBuffer.Lookup]
      by_cases hl : index - (kLastStaticEntry + 1) < T.entries_.num_entries_
      · rw [if_pos hl]
        have hM : 0 < T.entries_.max_entries_ := by
          rw [hcap]
          exact Nat.succ_pos _
        have hpos : (T.entries_.first_entry_ +
            (T.entries_.num_entries_ - 1 - (index - (kLastStaticEntry + 1)))) %
              T.entries_.max_entries_ < T.entries_.entries_.length := by
          rw [hlen]
          exact Nat.mod_lt _ hM
        obtain ⟨a, ha⟩ := list_get?_isSome T.entries_.entries_ _ hpos
        rw [ha]
        simp
      · rw [if_neg hl]
        simp
    · intro hgt hdead
      simp only [MementoRingBuffer.Lookup]
      rw [if_neg (by omega)]

/-- Witness for C7 (amended): the first dynamic index on the fresh (empty) table is
not live and reports not-found. -/
theorem c7_lookup_dead_index_not_found_witness :
    HPackTable.Lookup (HPackTable.applyOps initialHPackTable []) 62 =
      LookupResult.notFound :=
  (c7_lookup_dead_index_not_found [] 62 (by decide)).2 (by decide) (by decide)

/-- C8: starting from a fresh table, after any sequence of `Add`,
`AddLargerThanCurrentTableSize`, `SetMaxBytes` and `SetCurrentTableSize` operations
the invariant `mem_used_ ≤ current_table_bytes_ ≤ max_bytes_` holds, eviction removes
the oldest entry first, and lowering the agreed size to 0 evicts everything
(`num_entries = 0` and `mem_used = 0`). -/
theorem c8_size_invariant_after_mutations (ops : List HPackOp) (t : HPackTable) :
    (HPackTable.applyOps initialHPackTable ops).mem_used_ ≤
      (HPackTable.applyOps initialHPackTable ops).current_table_bytes_ ∧
    (HPackTable.applyOps initialHPackTable ops).current_table_bytes_ ≤
      (HPackTable.applyOps initialHPackTable ops).max_bytes_ ∧
    (HPackTable.applyOps initialHPackTable
        (ops ++ [HPackOp.set_current_table_size 0])).entries_.num_entries_ = 0 ∧
    (HPackTable.applyOps initialHPackTable
        (ops ++ [HPackOp.set_current_table_size 0])).mem_used_ = 0 ∧
    (t.Inv → 0 < t.entries_.num_entries_ →
      t.EvictOne.entries_.liveEntries = t.entries_.liveEntries.tail) := by
  have hinv := applyOps_inv ops initialHPackTable inv_initial
  have happ : HPackTable.applyOps initialHPackTable
      (ops ++ [HPackOp.set_current_table_size 0]) =
        ((HPackTable.applyOps initialHPackTable ops).SetCurrentTableSize 0).1 := by
    simp [HPackTable.applyOps, List.foldl_append, HPackTable.applyOp]
  have hzero :=
    (setCurrentTableSize_spec (HPackTable.applyOps initialHPackTable ops) 0 hinv).2 rfl
  refine ⟨hinv.2.1, hinv.2.2.1, ?_, ?_, ?_⟩
  · rw [happ]; exact hzero.1
  · rw [happ]; exact hzero.2
  · intro ht h0
    exact (evictOne_spec t ht.1 h0).2.2.2.2.2.2.2

set_option maxRecDepth 4000 in
/-- Witness for C8: oldest-first eviction on a concrete one-entry table. -/
theorem c8_size_invariant_after_mutations_witness :
    exTable.Inv ∧ 0 < exTable.entries_.num_entries_ ∧
    exTable.EvictOne.entries_.liveEntries = exTable.entries_.liveEntries.tail := by
  have h := c8_size_invariant_after_mutations [] exTable
  exact ⟨by decide, by decide, h.2.2.2.2 (by decide) (by decide)⟩

end HPack

namespace Drain

/-- C9: beginning shutdown sends the goodbye carrying the unbounded stream id
`2^31 - 1` together with the liveness probe; from the draining phase the probe
acknowledgment or the timeout — whichever comes first, acknowledged or unresponsive
peer alike — sends the second goodbye carrying the true highest accepted stream id
and closes; a stream initiated before the second goodbye is accepted and reflected in
that goodbye, and once closed no further goodbye is sent and requests are ignored. -/
theorem c9_graceful_drain_protocol (s : ConnState) (id : Nat) :
    (s.phase = Phase.running →
      (drain_step s DrainEvent.begin_shutdown).sent =
        s.sent ++ [Frame.goaway kMaxStreamId, Frame.ping] ∧
      (drain_step s DrainEvent.begin_shutdown).phase = Phase.draining) ∧
    (s.phase = Phase.draining →
      (drain_step s DrainEvent.ping_ack).sent =
        s.sent ++ [Frame.goaway s.last_accepted_stream_id] ∧
      (drain_step s DrainEvent.ping_ack).phase = Phase.closed ∧
      (drain_step s DrainEvent.ping_timeout).sent =
        s.sent ++ [Frame.goaway s.last_accepted_stream_id] ∧
      (drain_step s DrainEvent.ping_timeout).phase = Phase.closed) ∧
    (s.phase = Phase.draining →
      (drain_step s (DrainEvent.request id)).accepted = s.accepted ++ [id] ∧
      id ≤ (drain_step s (DrainEvent.request id)).last_accepted_stream_id ∧
      (drain_step (drain_step s (DrainEvent.request id)) DrainEvent.ping_ack).sent =
        s.sent ++ [Frame.goaway (max s.last_accepted_stream_id id)]) ∧
    (s.phase = Phase.closed →
      drain_step s DrainEvent.ping_ack = s ∧
      drain_step s DrainEvent.ping_timeout = s ∧
      drain_step s (DrainEvent.request id) = s) := by
  refine ⟨?_, ?_, ?_, ?_⟩ <;> intro hp <;>
    simp [drain_step, hp, send_final_goaway, Nat.le_max_right]

/-- Witness for C9: a concrete run — shutdown, one request during draining, then the
probe acknowledgment — produces exactly the two goodbyes with the expected stream
ids. -/
theorem c9_graceful_drain_protocol_witness :
    (drain_step initConn DrainEvent.begin_shutdown).phase = Phase.draining ∧
    (drain_step (drain_step (drain_step initConn DrainEvent.begin_shutdown)
        (DrainEvent.request 1)) DrainEvent.ping_ack).sent =
      [Frame.goaway kMaxStreamId, Frame.ping, Frame.goaway 1] := by
  have h0 := c9_graceful_drain_protocol initConn 1
  have hdr := (h0.1 rfl).2
  have h1 := c9_graceful_drain_protocol (drain_step initConn DrainEvent.begin_shutdown) 1
  have h2 := (h1.2.2.1 hdr).2.2
  refine ⟨hdr, ?_⟩
  rw [h2]
  decide

end Drain
